import Mathlib

/-!
# Formal model of the HEC receiver mock

Shallow embedding of `hec-receiver-mock.go`: the event record model
(`Event`, `RawEvent`, `unmarshalEvent` for `Event.UnmarshalJSON`), the
per-source accumulator (`eventSourceStat`, `applyEvent` / `consumeLogs`),
the request handler (`handleReq`) and the summary projection
(`calculateStats`, `summaryStatus`).

Modelling conventions:
* Go strings are UTF-8 byte sequences; `len` and slicing act on bytes, so
  payload operations run over `strBytes` (lists of byte values as `ℕ`).
* `time.Now()` is modelled by an explicit timestamp argument (an abstract
  nondecreasing tick count); the up-to-three `Now` calls inside one event
  application are collapsed to the event's single timestamp, which is
  faithful for every ordering property stated here because the real calls
  are themselves nondecreasing.
* `float64` quantities are modelled exactly: byte counters hold integral
  values (all sums of payload lengths, exact in `float64` far beyond any
  reachable magnitude), and the summary divisions use `GoFloat`, a rational
  plus the IEEE non-finite sentinels, with Go's finite/zero division rules.
  Rounding never matters for the properties proved here.
* `int64` counters are modelled as `ℤ`; no claim approaches `2^63`, and
  `strconv.ParseInt`'s 64-bit range check is modelled explicitly.
* A Go runtime panic (out-of-range string slice) and `log.Fatalln` abort
  processing; they are modelled as explicit outcomes.  On a panic the
  `net/http` layer recovers and the process keeps its accumulator (with
  the mutations already performed); on `log.Fatalln` the process exits.
-/

/-- UTF-8 encoding of one character as byte values (Go strings are UTF-8
byte sequences; `len` and index/slice expressions act on bytes). -/
def charBytes (c : Char) : List ℕ :=
  let n := c.toNat
  if n < 128 then [n]
  else if n < 2048 then [192 + n / 64, 128 + n % 64]
  else if n < 65536 then [224 + n / 4096, 128 + n / 64 % 64, 128 + n % 64]
  else [240 + n / 262144, 128 + n / 4096 % 64, 128 + n / 64 % 64, 128 + n % 64]

/-- The bytes of a Go string. -/
def strBytes (s : String) : List ℕ := s.data.flatMap charBytes

/-- ASCII decimal digit test on a byte. -/
def isDigitByte (b : ℕ) : Bool := 48 ≤ b && b ≤ 57

/-- Value of a byte string of decimal digits (most significant first). -/
def digitsToNat (bs : List ℕ) : ℕ := bs.foldl (fun a b => a * 10 + (b - 48)) 0

/-- Model of `strconv.ParseInt(s, 10, 64)` on the bytes of `s`: an optional
sign, then one or more ASCII digits, nothing else; the value must fit in a
signed 64-bit integer, otherwise the parse reports an error. -/
def parseIntGo (bs : List ℕ) : Option ℤ :=
  let signed : ℤ × List ℕ :=
    match bs with
    | 43 :: rest => (1, rest)
    | 45 :: rest => (-1, rest)
    | _ => (1, bs)
  if signed.2.isEmpty then none
  else if signed.2.all isDigitByte then
    let v : ℤ := signed.1 * digitsToNat signed.2
    if -(2 ^ 63) ≤ v ∧ v ≤ 2 ^ 63 - 1 then some v else none
  else none

/-- A decoded JSON value, as Go's `encoding/json` produces into an
`interface{}`: numbers arrive as `float64` (modelled exactly as `ℚ`;
JSON literals are finite), objects as string-keyed maps. -/
inductive JSONValue where
  | null : JSONValue
  | boolVal (b : Bool) : JSONValue
  | num (q : ℚ) : JSONValue
  | str (s : String) : JSONValue
  | arr (vs : List JSONValue) : JSONValue
  | obj (fs : List (String × JSONValue)) : JSONValue

/-- A `float64` value: a finite rational or one of the IEEE sentinels. -/
inductive GoFloat where
  | finite (q : ℚ) : GoFloat
  | posInf : GoFloat
  | negInf : GoFloat
  | nan : GoFloat
deriving DecidableEq

def GoFloat.isFinite : GoFloat → Bool
  | .finite _ => true
  | _ => false

/-- Go `float64` division restricted to finite operands: division by zero
yields `±Inf` (or `NaN` for `0/0`), otherwise the exact quotient. -/
def divGo (x y : ℚ) : GoFloat :=
  if y = 0 then
    if x = 0 then .nan else if 0 < x then .posInf else .negInf
  else .finite (x / y)

/-- Character-level digit test (for `strconv.ParseFloat`, which runs over
the characters of the time string; these are all ASCII-relevant). -/
def isDigitChar (c : Char) : Bool := 48 ≤ c.toNat && c.toNat ≤ 57

/-- Value of a character string of decimal digits. -/
def digitsToNatC (cs : List Char) : ℕ := cs.foldl (fun a c => a * 10 + (c.toNat - 48)) 0

/-- Decimal part of `strconv.ParseFloat` after the sign: digits with an
optional fractional part and an optional decimal exponent, at least one
mantissa digit, nothing left over.  The value is kept exact as `ℚ`
(rounding to the nearest `float64` is not modelled; every value a claim
evaluates is exactly representable).  Go's hexadecimal float literals and
digit-separating underscores are not modelled; no claim involves them. -/
def parseDecimal (cs : List Char) : Option ℚ :=
  let intPart := cs.takeWhile isDigitChar
  let rest1 := cs.dropWhile isDigitChar
  let fracSplit : List Char × List Char :=
    match rest1 with
    | '.' :: r => (r.takeWhile isDigitChar, r.dropWhile isDigitChar)
    | _ => ([], rest1)
  let fracPart := fracSplit.1
  let rest2 := fracSplit.2
  if intPart.isEmpty ∧ fracPart.isEmpty then none
  else
    let mant : ℚ := (digitsToNat (intPart.map Char.toNat) : ℚ) +
      (digitsToNat (fracPart.map Char.toNat) : ℚ) / (10 : ℚ) ^ fracPart.length
    match rest2 with
    | [] => some mant
    | c :: r =>
      if c = 'e' ∨ c = 'E' then
        let esigned : Bool × List Char :=
          match r with
          | '+' :: r2 => (false, r2)
          | '-' :: r2 => (true, r2)
          | _ => (false, r)
        if esigned.2.isEmpty ∨ ¬ esigned.2.all isDigitChar then none
        else
          let e := digitsToNat (esigned.2.map Char.toNat)
          some (if esigned.1 then mant / (10 : ℚ) ^ e else mant * (10 : ℚ) ^ e)
      else none

/-- Model of `strconv.ParseFloat(s, 64)`: an optional sign, then either a
case-insensitive `inf` / `infinity` special, or a decimal number; a bare
case-insensitive `nan` is also accepted.  Anything else is a parse error. -/
def parseFloatGo (s : String) : Option GoFloat :=
  let cs := s.data
  let signed : Bool × List Char :=
    match cs with
    | '+' :: r => (false, r)
    | '-' :: r => (true, r)
    | _ => (false, cs)
  let low := signed.2.map Char.toLower
  if low = "inf".data ∨ low = "infinity".data then
    some (if signed.1 then .negInf else .posInf)
  else if cs.map Char.toLower = "nan".data then some .nan
  else
    match parseDecimal signed.2 with
    | some q => some (.finite (if signed.1 then -q else q))
    | none => none

/-- The decoded event record (Go struct `Event`).  `time` is the optional
normalized numeric timestamp (`*float64`). -/
structure Event where
  time : Option GoFloat
  host : String
  source : String
  sourceType : String
  index : String
  event : String
  fields : List (String × JSONValue)

/-- The intermediate `rawEvent` of `Event.UnmarshalJSON`: identical fields
except that `time` is still an untyped JSON value (`interface{}`); a missing
`time` key and JSON `null` both leave that interface nil, modelled as
`JSONValue.null`. -/
structure RawEvent where
  time : JSONValue
  host : String
  source : String
  sourceType : String
  index : String
  event : String
  fields : List (String × JSONValue)

/-- Model of `Event.UnmarshalJSON` after the inner `json.Unmarshal` into
`rawEvent` succeeded: copy all plain fields, then switch on the shape of
`time` — a JSON number is taken as-is, a string goes through
`strconv.ParseFloat` (its failure fails the decode), and every other shape
falls out of the switch leaving `time` nil. -/
def unmarshalEvent (raw : RawEvent) : Option Event :=
  let base : Event :=
    { time := none, host := raw.host, source := raw.source,
      sourceType := raw.sourceType, index := raw.index,
      event := raw.event, fields := raw.fields }
  match raw.time with
  | .num q => some { base with time := some (.finite q) }
  | .str s =>
    match parseFloatGo s with
    | some v => some { base with time := some v }
    | none => none
  | _ => some base

/-- Go struct `eventSourceStat`, the per-source accumulator entry. -/
structure eventSourceStat where
  eventsReceived : ℤ
  beginTime : ℕ
  bytesReceived : ℕ
  endTime : ℕ
  generatedCount : ℤ
deriving DecidableEq

/-- The `performanceStat` map of `splunkReceiver`, as an association list
with distinct keys (Go map iteration order is unspecified; no property
proved here depends on the order). -/
abbrev PerformanceStat := List (String × eventSourceStat)

/-- Map lookup. -/
def lookupStat : PerformanceStat → String → Option eventSourceStat
  | [], _ => none
  | (k, v) :: rest, k' => if k = k' then some v else lookupStat rest k'

/-- Map write: replaces the entry for the key, or appends a new one. -/
def setStat : PerformanceStat → String → eventSourceStat → PerformanceStat
  | [], k, v => [(k, v)]
  | (k', v') :: rest, k, v =>
    if k' = k then (k, v) :: rest else (k', v') :: setStat rest k v

/-- The fresh entry `consumeLogs` inserts on first sight of a source. -/
def freshStat (now : ℕ) : eventSourceStat :=
  { eventsReceived := 0, beginTime := now, bytesReceived := 0,
    endTime := now, generatedCount := 1 }

/-- Bytes of the end-marker token `---end---`. -/
def endTokenBytes : List ℕ := strBytes "---end---"

/-- How one step of the `consumeLogs` loop terminates. -/
inductive StepOutcome where
  | ok : StepOutcome
  | panicked : StepOutcome
  | fatal : StepOutcome
deriving DecidableEq

/-- One iteration of the `consumeLogs` loop body: get-or-create the stat
for `event.Source`, bump `eventsReceived` and `bytesReceived`, set
`endTime`, then run the end-marker check.  `event.Event[:9]` panics when
the payload is shorter than 9 bytes, and `event.Event[10:]` panics when it
is shorter than 10; a failing `strconv.ParseInt` hits `log.Fatalln`.  In
the abort cases the returned state carries the mutations already made. -/
def applyEvent (st : PerformanceStat) (e : Event) (now : ℕ) :
    PerformanceStat × StepOutcome :=
  let prev := (lookupStat st e.source).getD (freshStat now)
  let bs := strBytes e.event
  let counted : eventSourceStat :=
    { eventsReceived := prev.eventsReceived + 1, beginTime := prev.beginTime,
      bytesReceived := prev.bytesReceived + bs.length, endTime := now,
      generatedCount := prev.generatedCount }
  if bs.length < 9 then (setStat st e.source counted, .panicked)
  else if bs.take 9 = endTokenBytes then
    if bs.length < 10 then (setStat st e.source counted, .panicked)
    else
      match parseIntGo (bs.drop 10) with
      | none => (setStat st e.source counted, .fatal)
      | some n =>
        (setStat st e.source { counted with generatedCount := n }, .ok)
  else (setStat st e.source counted, .ok)

/-- The `consumeLogs` loop over the decoded batch, each event paired with
its `time.Now()` tick; a panic or `log.Fatalln` stops the loop. -/
def consumeLogs : PerformanceStat → List (Event × ℕ) → PerformanceStat × StepOutcome
  | st, [] => (st, .ok)
  | st, (e, now) :: rest =>
    match applyEvent st e now with
    | (st', .ok) => consumeLogs st' rest
    | (st', .panicked) => (st', .panicked)
    | (st', .fatal) => (st', .fatal)

/-- Observable result of `handleReq` for one request. -/
inductive IngestResult where
  | okEmpty : IngestResult
  | badRequestMalformed : IngestResult
  | acceptedOK : IngestResult
  | panicked : IngestResult
  | fatalExit : IngestResult
deriving DecidableEq

/-- The decode loop of `handleReq`: each body fragment either decodes to an
Event (`some`) or fails (`none`, covering both JSON shape errors and the
time-field failures of `unmarshalEvent`); the first failure aborts, so the
batch decodes exactly when every fragment does. -/
def decodeAll : List (Option Event × ℕ) → Option (List (Event × ℕ))
  | [] => some []
  | (none, _) :: _ => none
  | (some e, t) :: rest => (decodeAll rest).map (fun l => (e, t) :: l)

/-- Model of `handleReq`: an empty body (content length zero) is answered
`OK` immediately; otherwise the whole body is decoded before anything is
applied, a decode failure answers 400 `Failed to unmarshal message body`
with the accumulator untouched, and only a cleanly decoded batch reaches
`consumeLogs`, which on success answers 202 `OK`. -/
def handleReq (st : PerformanceStat) (contentLength : ℕ)
    (frags : List (Option Event × ℕ)) : PerformanceStat × IngestResult :=
  if contentLength = 0 then (st, .okEmpty)
  else
    match decodeAll frags with
    | none => (st, .badRequestMalformed)
    | some evs =>
      match consumeLogs st evs with
      | (st', .ok) => (st', .acceptedOK)
      | (st', .panicked) => (st', .panicked)
      | (st', .fatal) => (st', .fatalExit)

/-- One summary row (Go struct `summaryData`); the three derived `float64`
fields keep their possible non-finite sentinels. -/
structure summaryData where
  source : String
  eps : GoFloat
  eventsReceived : ℤ
  thorughput : GoFloat
  dataIngestRate : GoFloat
  beginTime : ℕ
  endTime : ℕ
deriving DecidableEq

/-- `endTime.Sub(beginTime).Seconds()`: the elapsed ticks as a rational
number of seconds (the fixed positive scale factor is irrelevant to every
property here and is taken as 1); zero exactly when the timestamps agree. -/
def durationSeconds (b e : ℕ) : ℚ := (e : ℚ) - (b : ℚ)

/-- One row of `calculateStats`. -/
def statSummary (source : String) (s : eventSourceStat) : summaryData :=
  { source := source,
    eps := divGo (s.eventsReceived : ℚ) (durationSeconds s.beginTime s.endTime),
    eventsReceived := s.eventsReceived,
    thorughput := .finite ((s.bytesReceived : ℚ) / 1024 / 1024),
    dataIngestRate := divGo (s.eventsReceived : ℚ) (s.generatedCount : ℚ),
    beginTime := s.beginTime, endTime := s.endTime }

/-- `calculateStats`: one summary row per accumulator entry. -/
def calculateStats (st : PerformanceStat) : List summaryData :=
  st.map (fun p => statSummary p.1 p.2)

/-- `encoding/json.Marshal` succeeds on the summary slice exactly when no
`float64` field is `±Inf` or `NaN` (Go returns an `UnsupportedValueError`
for non-finite floats); every other field always marshals. -/
def summaryMarshalOk (l : List summaryData) : Bool :=
  l.all (fun d => d.eps.isFinite && d.thorughput.isFinite && d.dataIngestRate.isFinite)

/-- The HTTP status the `summary` handler answers: 202 with the JSON body
on a successful marshal, 500 via `http.Error` when `json.Marshal` fails. -/
def summaryStatus (st : PerformanceStat) : ℕ :=
  if summaryMarshalOk (calculateStats st) then 202 else 500

/-- An event whose application runs the loop body to completion: the
payload is at least 9 bytes (no panic in `event.Event[:9]`), and if it
carries the end-marker token it is at least 10 bytes (no panic in
`event.Event[10:]`) with an integer-parsable suffix (no `log.Fatalln`). -/
def eventOk (e : Event) : Prop :=
  9 ≤ (strBytes e.event).length ∧
  ((strBytes e.event).take 9 = endTokenBytes →
    10 ≤ (strBytes e.event).length ∧
      (parseIntGo ((strBytes e.event).drop 10)).isSome = true)

instance (e : Event) : Decidable (eventOk e) := by
  unfold eventOk; infer_instance

/-- Every stored stat is well-ordered and no later than the clock `t`. -/
def timeInv (st : PerformanceStat) (t : ℕ) : Prop :=
  ∀ p ∈ st, p.2.beginTime ≤ p.2.endTime ∧ p.2.endTime ≤ t

/-- The `time.Now()` ticks attached to a batch are nondecreasing and
bounded below by `t` (the real clock is monotone). -/
def nowsLB : ℕ → List (Event × ℕ) → Prop
  | _, [] => True
  | t, (_, n) :: rest => t ≤ n ∧ nowsLB n rest

/-- The per-source event count the accumulator reports. -/
def statEvents (st : PerformanceStat) (src : String) : Option ℤ :=
  (lookupStat st src).map eventSourceStat.eventsReceived

/-- The per-source byte count the accumulator reports. -/
def statBytes (st : PerformanceStat) (src : String) : Option ℕ :=
  (lookupStat st src).map eventSourceStat.bytesReceived

/-- The per-source generated count the accumulator reports. -/
def statGenerated (st : PerformanceStat) (src : String) : Option ℤ :=
  (lookupStat st src).map eventSourceStat.generatedCount

/-- A minimal concrete event for witnesses: only `source` and the payload
matter to the accumulator. -/
def mkEvent (source payload : String) : Event :=
  { time := none, host := "h", source := source, sourceType := "",
    index := "", event := payload, fields := [] }

/-! ## Map lemmas -/

theorem lookupStat_setStat_self (st : PerformanceStat) (k : String)
    (v : eventSourceStat) : lookupStat (setStat st k v) k = some v := by
  induction st with
  | nil => simp [setStat, lookupStat]
  | cons p rest ih =>
    obtain ⟨k', v'⟩ := p
    by_cases h : k' = k
    · simp [setStat, lookupStat, h]
    · simp [setStat, lookupStat, h, ih]

theorem lookupStat_setStat_ne (st : PerformanceStat) (k k' : String)
    (v : eventSourceStat) (h : k' ≠ k) :
    lookupStat (setStat st k v) k' = lookupStat st k' := by
  have h' : ¬ k = k' := fun hk => h hk.symm
  induction st with
  | nil => simp [setStat, lookupStat, h']
  | cons p rest ih =>
    obtain ⟨k0, v0⟩ := p
    by_cases hk : k0 = k
    · subst hk
      simp [setStat, lookupStat, h']
    · simp [setStat, lookupStat, hk, ih]

theorem lookupStat_mem (st : PerformanceStat) (k : String) (v : eventSourceStat)
    (h : lookupStat st k = some v) : (k, v) ∈ st := by
  induction st with
  | nil => simp [lookupStat] at h
  | cons p rest ih =>
    obtain ⟨k', v'⟩ := p
    by_cases hk : k' = k
    · subst hk
      simp [lookupStat] at h
      simp [h]
    · simp [lookupStat, hk] at h
      exact List.mem_cons_of_mem _ (ih h)

theorem mem_setStat (st : PerformanceStat) (k : String) (v : eventSourceStat)
    (p : String × eventSourceStat) (h : p ∈ setStat st k v) :
    p = (k, v) ∨ p ∈ st := by
  induction st with
  | nil =>
    simp [setStat] at h
    exact Or.inl h
  | cons q rest ih =>
    obtain ⟨k0, v0⟩ := q
    by_cases hk : k0 = k
    · simp [setStat, hk] at h
      rcases h with h | h
      · exact Or.inl h
      · exact Or.inr (List.mem_cons_of_mem _ h)
    · simp [setStat, hk] at h
      rcases h with h | h
      · exact Or.inr (by simp [h])
      · rcases ih h with h2 | h2
        · exact Or.inl h2
        · exact Or.inr (List.mem_cons_of_mem _ h2)

/-! ## `applyEvent` shape lemmas -/

theorem applyEvent_short (st : PerformanceStat) (e : Event) (now : ℕ)
    (h : (strBytes e.event).length < 9) :
    applyEvent st e now =
      (setStat st e.source
        { eventsReceived := ((lookupStat st e.source).getD (freshStat now)).eventsReceived + 1,
          beginTime := ((lookupStat st e.source).getD (freshStat now)).beginTime,
          bytesReceived := ((lookupStat st e.source).getD (freshStat now)).bytesReceived +
            (strBytes e.event).length,
          endTime := now,
          generatedCount := ((lookupStat st e.source).getD (freshStat now)).generatedCount },
        .panicked) := by
  simp [applyEvent, h]

theorem applyEvent_nonmarker (st : PerformanceStat) (e : Event) (now : ℕ)
    (h9 : 9 ≤ (strBytes e.event).length)
    (htok : (strBytes e.event).take 9 ≠ endTokenBytes) :
    applyEvent st e now =
      (setStat st e.source
        { eventsReceived := ((lookupStat st e.source).getD (freshStat now)).eventsReceived + 1,
          beginTime := ((lookupStat st e.source).getD (freshStat now)).beginTime,
          bytesReceived := ((lookupStat st e.source).getD (freshStat now)).bytesReceived +
            (strBytes e.event).length,
          endTime := now,
          generatedCount := ((lookupStat st e.source).getD (freshStat now)).generatedCount },
        .ok) := by
  have h1 : ¬ (strBytes e.event).length < 9 := by omega
  simp [applyEvent, h1, htok]

theorem applyEvent_marker (st : PerformanceStat) (e : Event) (now : ℕ) (n : ℤ)
    (htok : (strBytes e.event).take 9 = endTokenBytes)
    (hlen : 10 ≤ (strBytes e.event).length)
    (hp : parseIntGo ((strBytes e.event).drop 10) = some n) :
    applyEvent st e now =
      (setStat st e.source
        { eventsReceived := ((lookupStat st e.source).getD (freshStat now)).eventsReceived + 1,
          beginTime := ((lookupStat st e.source).getD (freshStat now)).beginTime,
          bytesReceived := ((lookupStat st e.source).getD (freshStat now)).bytesReceived +
            (strBytes e.event).length,
          endTime := now,
          generatedCount := n },
        .ok) := by
  have h1 : ¬ (strBytes e.event).length < 9 := by omega
  have h2 : ¬ (strBytes e.event).length < 10 := by omega
  simp [applyEvent, h1, htok, h2, hp]

theorem applyEvent_of_eventOk (st : PerformanceStat) (e : Event) (now : ℕ)
    (h : eventOk e) :
    ∃ g, applyEvent st e now =
      (setStat st e.source
        { eventsReceived := ((lookupStat st e.source).getD (freshStat now)).eventsReceived + 1,
          beginTime := ((lookupStat st e.source).getD (freshStat now)).beginTime,
          bytesReceived := ((lookupStat st e.source).getD (freshStat now)).bytesReceived +
            (strBytes e.event).length,
          endTime := now,
          generatedCount := g },
        .ok) := by
  obtain ⟨h9, hmark⟩ := h
  by_cases htok : (strBytes e.event).take 9 = endTokenBytes
  · obtain ⟨h10, hps⟩ := hmark htok
    obtain ⟨n, hn⟩ := Option.isSome_iff_exists.mp hps
    exact ⟨n, applyEvent_marker st e now n htok h10 hn⟩
  · exact ⟨_, applyEvent_nonmarker st e now h9 htok⟩

theorem applyEvent_fst_shape (st : PerformanceStat) (e : Event) (now : ℕ) :
    ∃ g o, applyEvent st e now =
      (setStat st e.source
        { eventsReceived := ((lookupStat st e.source).getD (freshStat now)).eventsReceived + 1,
          beginTime := ((lookupStat st e.source).getD (freshStat now)).beginTime,
          bytesReceived := ((lookupStat st e.source).getD (freshStat now)).bytesReceived +
            (strBytes e.event).length,
          endTime := now,
          generatedCount := g },
        o) := by
  by_cases h1 : (strBytes e.event).length < 9
  · exact ⟨_, _, applyEvent_short st e now h1⟩
  · by_cases h2 : (strBytes e.event).take 9 = endTokenBytes
    · by_cases h3 : (strBytes e.event).length < 10
      · exact ⟨((lookupStat st e.source).getD (freshStat now)).generatedCount,
          .panicked, by simp [applyEvent, h1, h2, h3]⟩
      · cases hp : parseIntGo ((strBytes e.event).drop 10) with
        | none => exact ⟨((lookupStat st e.source).getD (freshStat now)).generatedCount,
            .fatal, by simp [applyEvent, h1, h2, h3, hp]⟩
        | some n =>
          exact ⟨n, _, applyEvent_marker st e now n h2 (by omega) hp⟩
    · exact ⟨_, _, applyEvent_nonmarker st e now (by omega) h2⟩

/-! ## Batch lemmas -/

theorem consumeLogs_cons_ok (st st1 : PerformanceStat) (e : Event) (now : ℕ)
    (rest : List (Event × ℕ)) (h : applyEvent st e now = (st1, .ok)) :
    consumeLogs st ((e, now) :: rest) = consumeLogs st1 rest := by
  simp [consumeLogs, h]

theorem consumeLogs_counts (src : String) (evs : List (Event × ℕ)) :
    ∀ (st : PerformanceStat) (s0 : eventSourceStat),
      (∀ p ∈ evs, p.1.source = src ∧ eventOk p.1) →
      lookupStat st src = some s0 →
      ∃ st' s1, consumeLogs st evs = (st', .ok) ∧ lookupStat st' src = some s1 ∧
        s1.eventsReceived = s0.eventsReceived + evs.length ∧
        s1.bytesReceived = s0.bytesReceived +
          (evs.map (fun p => (strBytes p.1.event).length)).sum := by
  induction evs with
  | nil =>
    intro st s0 _ hl
    exact ⟨st, s0, rfl, hl, by simp, by simp⟩
  | cons p rest ih =>
    obtain ⟨e, now⟩ := p
    intro st s0 h hl
    obtain ⟨hsrc, hok⟩ := h (e, now) (List.mem_cons_self _ _)
    obtain ⟨g, hg⟩ := applyEvent_of_eventOk st e now hok
    rw [hsrc, hl] at hg
    simp only [Option.getD_some] at hg
    have hstep := consumeLogs_cons_ok st _ e now rest hg
    have hl' := lookupStat_setStat_self st src
      { eventsReceived := s0.eventsReceived + 1, beginTime := s0.beginTime,
        bytesReceived := s0.bytesReceived + (strBytes e.event).length,
        endTime := now, generatedCount := g }
    obtain ⟨st', s1, hrun, hl2, he2, hb2⟩ :=
      ih _ _ (fun q hq => h q (List.mem_cons_of_mem _ hq)) hl'
    refine ⟨st', s1, ?_, hl2, ?_, ?_⟩
    · rw [hstep, hrun]
    · rw [he2]
      simp only [List.length_cons]
      push_cast
      ring
    · rw [hb2]
      simp only [List.map_cons, List.sum_cons]
      omega

theorem applyEvent_timeInv (st : PerformanceStat) (e : Event) (now t : ℕ)
    (hinv : timeInv st t) (ht : t ≤ now) :
    timeInv (applyEvent st e now).1 now := by
  obtain ⟨g, o, hshape⟩ := applyEvent_fst_shape st e now
  rw [hshape]
  intro p hp
  rcases mem_setStat _ _ _ _ hp with hpe | hpm
  · subst hpe
    cases hl : lookupStat st e.source with
    | none => simp [hl, freshStat]
    | some s0 =>
      have hmem := hinv (e.source, s0) (lookupStat_mem _ _ _ hl)
      dsimp only at hmem
      obtain ⟨hb, he⟩ := hmem
      simp only [hl, Option.getD_some]
      constructor
      · omega
      · omega
  · obtain ⟨hb, he⟩ := hinv p hpm
    exact ⟨hb, by omega⟩

theorem consumeLogs_timeInv (evs : List (Event × ℕ)) :
    ∀ (st : PerformanceStat) (t : ℕ), timeInv st t → nowsLB t evs →
      ∃ t', timeInv (consumeLogs st evs).1 t' := by
  induction evs with
  | nil =>
    intro st t h _
    exact ⟨t, h⟩
  | cons p rest ih =>
    obtain ⟨e, now⟩ := p
    intro st t h hn
    obtain ⟨htn, hrest⟩ := hn
    have hstep : timeInv (applyEvent st e now).1 now := applyEvent_timeInv st e now t h htn
    cases ha : applyEvent st e now with
    | mk st1 o =>
      rw [ha] at hstep
      cases o with
      | ok =>
        have hrec := ih st1 now hstep hrest
        simpa [consumeLogs, ha] using hrec
      | panicked => exact ⟨now, by simpa [consumeLogs, ha] using hstep⟩
      | fatal => exact ⟨now, by simpa [consumeLogs, ha] using hstep⟩

theorem decodeAll_eq_none (frags : List (Option Event × ℕ))
    (h : ∃ p ∈ frags, p.1 = none) : decodeAll frags = none := by
  induction frags with
  | nil => simp at h
  | cons q rest ih =>
    obtain ⟨oe, t⟩ := q
    obtain ⟨p, hp, hnone⟩ := h
    rcases List.mem_cons.mp hp with rfl | hmem
    · simp only at hnone
      subst hnone
      rfl
    · cases oe with
      | none => rfl
      | some e => simp [decodeAll, ih ⟨p, hmem, hnone⟩]

theorem divGo_isFinite_zero (x : ℚ) : (divGo x 0).isFinite = false := by
  unfold divGo
  split_ifs <;> simp_all [GoFloat.isFinite]

/-! ## Claim theorems -/

/-- C1: a nonempty request body in which at least one JSON fragment fails
to decode as an Event is answered with the 400 malformed-body failure
(`Failed to unmarshal message body`), and the accumulator is exactly its
pre-request state: `handleReq` decodes the whole batch before calling
`consumeLogs`, so no decoded fragment of a failing batch is applied. -/
theorem C1_malformed_batch_is_rejected_atomically (st : PerformanceStat)
    (contentLength : ℕ) (frags : List (Option Event × ℕ))
    (hcl : contentLength ≠ 0) (hbad : ∃ p ∈ frags, p.1 = none) :
    handleReq st contentLength frags = (st, .badRequestMalformed) := by
  simp [handleReq, hcl, decodeAll_eq_none frags hbad]

/-- C1 witness: one good and one malformed fragment against a nonempty
accumulator leave the accumulator untouched and answer 400. -/
theorem C1_witness :
    handleReq [("a", ⟨3, 1, 7, 2, 1⟩)] 25
      [(some (mkEvent "a" "helloworld"), 5), (none, 6)] =
      ([("a", ⟨3, 1, 7, 2, 1⟩)], .badRequestMalformed) :=
  C1_malformed_batch_is_rejected_atomically _ _ _ (by decide)
    ⟨(none, 6), by simp, rfl⟩

/-- C2: the code violates this claim.  For an applied event whose payload
is the 6-byte string `---end`, the end-marker check evaluates
`event.Event[:9]` on a payload shorter than 9 bytes, which panics with an
out-of-range slice error (after the counters were already bumped), instead
of treating the event as a non-marker: the loop aborts mid-batch. -/
theorem C2_short_payload_panics :
    consumeLogs [] [(mkEvent "s" "---end", 0)] =
      ([("s", ⟨1, 0, 6, 0, 1⟩)], .panicked) := by decide

/-- C3 counterexample: an event with payload exactly `---end---42` sets
generatedCount to 2, not 42, because the code parses `event.Event[10:]`,
which skips the byte at index 9 (the `4`). -/
theorem C3_counterexample :
    statGenerated (consumeLogs [] [(mkEvent "s" "---end---42", 0)]).1 "s" =
      some 2 ∧ (2 : ℤ) ≠ 42 :=
  ⟨by decide, by decide⟩

/-- C3 (amended): when the payload's first 9 bytes equal `---end---`, the
text after the 10th byte — `event.Event[10:]`, so the byte at index 9 is
skipped — is parsed as an integer and overwrites generatedCount for the
event's source (payload `---end---142` sets it to 42; `---end---42` sets
it to 2). -/
theorem C3_end_marker_overwrites_generatedCount (st : PerformanceStat)
    (e : Event) (now : ℕ) (n : ℤ)
    (htok : (strBytes e.event).take 9 = endTokenBytes)
    (hlen : 10 ≤ (strBytes e.event).length)
    (hp : parseIntGo ((strBytes e.event).drop 10) = some n) :
    (applyEvent st e now).2 = .ok ∧
      statGenerated (applyEvent st e now).1 e.source = some n := by
  rw [applyEvent_marker st e now n htok hlen hp]
  exact ⟨rfl, by simp [statGenerated, lookupStat_setStat_self]⟩

/-- C3 witness: payload `---end---142` sets generatedCount to 42. -/
theorem C3_witness :
    (applyEvent [] (mkEvent "s3" "---end---142") 7).2 = .ok ∧
      statGenerated (applyEvent [] (mkEvent "s3" "---end---142") 7).1 "s3" =
        some 42 :=
  C3_end_marker_overwrites_generatedCount [] (mkEvent "s3" "---end---142") 7 42
    (by decide) (by decide) (by decide)

/-- C4 counterexample: two valid events with the same source and the
2-byte payload `ab` yield eventsReceived 1, not 2: the first application
panics in the end-marker bounds check and the second event is never
applied. -/
theorem C4_counterexample :
    consumeLogs [] [(mkEvent "s" "ab", 0), (mkEvent "s" "ab", 1)] =
      ([("s", ⟨1, 0, 2, 0, 1⟩)], .panicked) ∧ (1 : ℤ) ≠ 2 :=
  ⟨by decide, by decide⟩

/-- C4 (amended): for every nonempty batch of events sharing one source in
which every payload is at least 9 bytes long and every end-marker payload
is at least 10 bytes with an integer-parsable suffix (the conditions under
which the loop body never panics or hits `log.Fatalln`), ingestion into a
fresh accumulator completes, eventsReceived for the source equals the
batch length, and bytesReceived equals the sum of the payload byte
lengths. -/
theorem C4_same_source_totals (src : String) (evs : List (Event × ℕ))
    (hne : evs ≠ [])
    (h : ∀ p ∈ evs, p.1.source = src ∧ eventOk p.1) :
    (consumeLogs [] evs).2 = .ok ∧
      statEvents (consumeLogs [] evs).1 src = some (evs.length : ℤ) ∧
      statBytes (consumeLogs [] evs).1 src =
        some ((evs.map (fun p => (strBytes p.1.event).length)).sum) := by
  match evs, hne with
  | (e, n0) :: rest, _ =>
    obtain ⟨hsrc, hok⟩ := h (e, n0) (List.mem_cons_self _ _)
    obtain ⟨g, hg⟩ := applyEvent_of_eventOk [] e n0 hok
    rw [hsrc] at hg
    simp only [lookupStat, Option.getD_none, freshStat, zero_add] at hg
    have hstep := consumeLogs_cons_ok [] _ e n0 rest hg
    have hl' := lookupStat_setStat_self [] src
      ⟨1, n0, (strBytes e.event).length, n0, g⟩
    obtain ⟨st', s1, hrun, hl2, he2, hb2⟩ :=
      consumeLogs_counts src rest _ _
        (fun q hq => h q (List.mem_cons_of_mem _ hq)) hl'
    rw [hstep, hrun]
    refine ⟨rfl, ?_, ?_⟩
    · simp only [statEvents, hl2, Option.map_some', Option.some.injEq]
      rw [he2]
      push_cast [List.length_cons]
      ring
    · simp only [statBytes, hl2, Option.map_some', Option.some.injEq]
      rw [hb2]
      simp [List.map_cons, List.sum_cons]

/-- C4 witness: two 10-byte events for source `app1` give count 2 and 20
bytes. -/
theorem C4_witness :
    (consumeLogs []
      [(mkEvent "app1" "0123456789", 0), (mkEvent "app1" "0123456789", 1)]).2 =
        .ok ∧
      statEvents (consumeLogs []
        [(mkEvent "app1" "0123456789", 0), (mkEvent "app1" "0123456789", 1)]).1
        "app1" = some 2 ∧
      statBytes (consumeLogs []
        [(mkEvent "app1" "0123456789", 0), (mkEvent "app1" "0123456789", 1)]).1
        "app1" = some 20 :=
  C4_same_source_totals "app1"
    [(mkEvent "app1" "0123456789", 0), (mkEvent "app1" "0123456789", 1)]
    (by simp) (by decide)

/-- C5 counterexample: a time field that is neither a number nor a string
(here the JSON boolean `true`) does not fail the decode, contrary to the
claim: the type switch in `UnmarshalJSON` has no matching case, falls
through, and the event decodes successfully with a nil time. -/
theorem C5_counterexample :
    unmarshalEvent
      { time := .boolVal true, host := "h", source := "s",
        sourceType := "", index := "", event := "x", fields := [] } =
    some
      { time := none, host := "h", source := "s", sourceType := "",
        index := "", event := "x", fields := [] } := rfl

/-- C5 (amended): the number `1700000000.5` and the string
`"1700000000.5"` both decode and normalize to the same internal numeric
value; a string that fails the float parse (such as `"abc"`)
fails the decode; but a time field of any other shape (neither number nor
string) decodes successfully with the time left absent, rather than
failing. -/
theorem C5_time_field_decode (r : RawEvent) :
    (r.time = .num (1700000000.5 : ℚ) →
      unmarshalEvent r = some { time := some (.finite (1700000000.5 : ℚ)),
                                host := r.host, source := r.source,
                                sourceType := r.sourceType, index := r.index,
                                event := r.event, fields := r.fields })
    ∧ (r.time = .str "1700000000.5" →
      unmarshalEvent r = some { time := some (.finite (1700000000.5 : ℚ)),
                                host := r.host, source := r.source,
                                sourceType := r.sourceType, index := r.index,
                                event := r.event, fields := r.fields })
    ∧ (∀ s, r.time = .str s → parseFloatGo s = none → unmarshalEvent r = none)
    ∧ (r.time = .str "abc" → unmarshalEvent r = none)
    ∧ ((∀ q, r.time ≠ .num q) → (∀ s, r.time ≠ .str s) →
      unmarshalEvent r = some { time := none, host := r.host,
                                source := r.source,
                                sourceType := r.sourceType,
                                index := r.index, event := r.event,
                                fields := r.fields }) := by
  refine ⟨?_, ?_, ?_, ?_, ?_⟩
  · intro h
    simp [unmarshalEvent, h]
  · intro h
    have h0 : parseFloatGo "1700000000.5" =
        some (.finite ((1700000000 : ℚ) + 5 / 10 ^ 1)) := rfl
    have hp : parseFloatGo "1700000000.5" =
        some (.finite (1700000000.5 : ℚ)) := by
      rw [h0]
      simp only [Option.some.injEq, GoFloat.finite.injEq]
      norm_num
    simp [unmarshalEvent, h, hp]
  · intro s hs hp
    simp [unmarshalEvent, hs, hp]
  · intro h
    have hp : parseFloatGo "abc" = none := rfl
    simp [unmarshalEvent, h, hp]
  · intro hq hs
    cases ht : r.time with
    | num q => exact absurd ht (hq q)
    | str s => exact absurd ht (hs s)
    | null => simp [unmarshalEvent, ht]
    | boolVal b => simp [unmarshalEvent, ht]
    | arr vs => simp [unmarshalEvent, ht]
    | obj fs => simp [unmarshalEvent, ht]

/-- C5 witness: the string form decodes to the numeric value
`1700000000.5`. -/
theorem C5_witness :
    unmarshalEvent
      { time := .str "1700000000.5", host := "h", source := "s",
        sourceType := "st", index := "i", event := "x", fields := [] } =
    some
      { time := some (.finite (1700000000.5 : ℚ)), host := "h",
        source := "s", sourceType := "st", index := "i", event := "x",
        fields := [] } :=
  (C5_time_field_decode _).2.1 rfl

/-- C6 counterexample: with one source whose stat has endTime equal to
beginTime, eps is the `+Inf` sentinel and `json.Marshal` rejects it, so
the summary request fails with HTTP 500 via `http.Error` instead of
rendering a textual fallback. -/
theorem C6_counterexample :
    (statSummary "app1" ⟨1, 5, 3, 5, 1⟩).eps = GoFloat.posInf ∧
      summaryStatus [("app1", ⟨1, 5, 3, 5, 1⟩)] = 500 := by
  constructor
  · simp [statSummary, durationSeconds, divGo]
  · simp [summaryStatus, summaryMarshalOk, calculateStats, statSummary,
      durationSeconds, divGo, GoFloat.isFinite]

/-- C6 (amended): whenever some accumulator entry has zero duration, the
eps division by zero yields a non-finite sentinel without crashing the
process, but `json.Marshal` rejects the non-finite value, so the summary
operation fails that request with the 500 internal-server-error path. -/
theorem C6_zero_duration_fails_summary (st : PerformanceStat)
    (h : ∃ p ∈ st, p.2.endTime = p.2.beginTime) :
    summaryStatus st = 500 := by
  obtain ⟨p, hp, he⟩ := h
  have hmem : statSummary p.1 p.2 ∈ calculateStats st :=
    List.mem_map_of_mem _ hp
  have heps : (statSummary p.1 p.2).eps.isFinite = false := by
    have hd : durationSeconds p.2.beginTime p.2.endTime = 0 := by
      simp [durationSeconds, he]
    simp only [statSummary]
    rw [hd]
    exact divGo_isFinite_zero _
  have hall : summaryMarshalOk (calculateStats st) = false := by
    cases hres : summaryMarshalOk (calculateStats st)
    · rfl
    · exfalso
      simp only [summaryMarshalOk] at hres
      have := List.all_eq_true.mp hres _ hmem
      simp [heps] at this
  simp [summaryStatus, hall]

/-- C6 witness: a concrete zero-duration source fails the summary. -/
theorem C6_witness : summaryStatus [("b", ⟨2, 7, 10, 7, 1⟩)] = 500 :=
  C6_zero_duration_fails_summary _ ⟨("b", ⟨2, 7, 10, 7, 1⟩), by simp, rfl⟩

/-- C7: a request with content length zero is answered with the fixed OK
acknowledgment and the accumulator is returned untouched: no stat entry is
created or mutated. -/
theorem C7_empty_body_is_noop (st : PerformanceStat)
    (frags : List (Option Event × ℕ)) :
    handleReq st 0 frags = (st, .okEmpty) := rfl

/-- C8: as long as the `time.Now()` ticks supplied during ingestion are
nondecreasing (and every entry of the starting state is well-ordered and
not ahead of the clock), every stat reachable after any batch satisfies
beginTime ≤ endTime: beginTime is set once at creation and endTime is
rewritten to now on every applied event. -/
theorem C8_beginTime_le_endTime (evs : List (Event × ℕ))
    (st : PerformanceStat) (t : ℕ) (hinv : timeInv st t)
    (hnows : nowsLB t evs) (src : String) (stat : eventSourceStat)
    (hl : lookupStat (consumeLogs st evs).1 src = some stat) :
    stat.beginTime ≤ stat.endTime := by
  obtain ⟨t', h⟩ := consumeLogs_timeInv evs st t hinv hnows
  exact (h (src, stat) (lookupStat_mem _ _ _ hl)).1

/-- C8 witness: two events at ticks 3 and 5 produce the stat
(2, 3, 20, 5, 1), whose beginTime 3 is at most its endTime 5. -/
theorem C8_witness :
    (⟨2, 3, 20, 5, 1⟩ : eventSourceStat).beginTime ≤
      (⟨2, 3, 20, 5, 1⟩ : eventSourceStat).endTime :=
  C8_beginTime_le_endTime
    [(mkEvent "app1" "abcdefghij", 3), (mkEvent "app1" "abcdefghij", 5)]
    [] 0 (by intro p hp; simp at hp) ⟨by omega, by omega, trivial⟩
    "app1" ⟨2, 3, 20, 5, 1⟩ (by decide)

/-- C10: an applied end-marker event is itself counted exactly like an
ordinary event before generatedCount is overwritten: relative to the prior
stat (or the fresh stat), eventsReceived rises by one and the byte length
of the full marker payload is added to bytesReceived, while endTime is set
to now and generatedCount becomes the parsed suffix. -/
theorem C10_marker_event_is_counted (st : PerformanceStat) (e : Event)
    (now : ℕ) (n : ℤ)
    (htok : (strBytes e.event).take 9 = endTokenBytes)
    (hlen : 10 ≤ (strBytes e.event).length)
    (hp : parseIntGo ((strBytes e.event).drop 10) = some n) :
    applyEvent st e now =
      (setStat st e.source
        { eventsReceived :=
            ((lookupStat st e.source).getD (freshStat now)).eventsReceived + 1,
          beginTime := ((lookupStat st e.source).getD (freshStat now)).beginTime,
          bytesReceived :=
            ((lookupStat st e.source).getD (freshStat now)).bytesReceived +
              (strBytes e.event).length,
          endTime := now,
          generatedCount := n }, .ok) :=
  applyEvent_marker st e now n htok hlen hp

/-- C10 witness: a 12-byte marker `---end---x-5` against an existing stat
(4, 1, 9, 2, 7) is counted (events 5, bytes 21, endTime 6) and overwrites
generatedCount with the parsed suffix -5. -/
theorem C10_witness :
    applyEvent [("t2", ⟨4, 1, 9, 2, 7⟩)] (mkEvent "t2" "---end---x-5") 6 =
      ([("t2", ⟨5, 1, 21, 6, -5⟩)], .ok) := by
  rw [C10_marker_event_is_counted [("t2", ⟨4, 1, 9, 2, 7⟩)]
      (mkEvent "t2" "---end---x-5") 6 (-5) (by decide) (by decide) (by decide)]
  decide
